import Mathlib

/-!
Verification of the DOCX → PDF/A conversion pipeline (`src/convert.py`).

The file embeds the pure logic of the four pipeline stages:

* `extract_outline_items` — the Outline Extractor's paragraph filter
  (`convert.py`, `extract_outline_items`);
* `add_outlines_to_pdf` / `mergeStep` / `mergeLoop` — the Outline Merger's
  level-to-parent bookmark tree reconstruction (`convert.py`,
  `add_outlines_to_pdf`);
* `normalizeCatalog` / `convert_pdf_to_pdfa` — the Archival Normalizer's
  catalog and XMP edits together with its catch-and-copy failure handling
  (`convert.py`, `convert_pdf_to_pdfa`);
* `pdf_for_pdfa_choice` — `main`'s skip of the Merger on an empty outline.

Python's dict `parents` is embedded as a total function
`Int → Option (Option Nat)`: `none` means the key is absent, `some none` is
the stored root sentinel (`{0: None}`), and `some (some i)` is a stored
bookmark node, identified by its creation index in the writer's bookmark
arena.  `parents.get(level - 1)` returning `None` both for an absent key and
for the stored sentinel is `Option.getD · none` on that codomain.
-/

/-- Outline items are the `(title, level, page)` tuples built by
`extract_outline_items` and consumed by `add_outlines_to_pdf`. -/
abbrev OutlineItem : Type := String × Int × Int

def itemTitle (it : OutlineItem) : String := it.1

def itemLevel (it : OutlineItem) : Int := it.2.1

def itemPage (it : OutlineItem) : Int := it.2.2

/-- Default tuple used with `List.getD`; every use is guarded by an index
bound, so its value never reaches a conclusion. -/
def defaultItem : OutlineItem := ("", 0, 0)

/-- Level of the `k`-th item of an outline list. -/
def levelAt (xs : List OutlineItem) (k : Nat) : Int := itemLevel (xs.getD k defaultItem)

/-- A bookmark node created by `writer.add_outline_item`: title, 0-based
target page index, and the parent node (`none` = root level), identified by
its creation index. -/
structure Bookmark where
  title : String
  pageIndex : Int
  parent : Option Nat
deriving DecidableEq, Inhabited

/-- State of the merge loop in `add_outlines_to_pdf`: the bookmarks created
so far (in creation order, so list position = node identity) and the
`parents` dict. -/
structure MergeState where
  bookmarks : List Bookmark
  parents : Int → Option (Option Nat)

/-- Initial state: no bookmarks, `parents = {0: None}`. -/
def initMergeState : MergeState :=
  { bookmarks := [], parents := fun j => if j = 0 then some none else none }

/-- `min(max(page - 1, 0), max_page_index)` from `add_outlines_to_pdf`. -/
def clampPageIndex (maxPageIndex : Int) (page : Int) : Int :=
  min (max (page - 1) 0) maxPageIndex

/-- One iteration of the `for title, level, page in outlines` loop:
clamp the page, look the parent up at `level - 1`, append the new bookmark,
record it at `level`, and delete every key strictly deeper than `level`. -/
def mergeStep (maxPageIndex : Int) (st : MergeState) (it : OutlineItem) : MergeState :=
  let pageIndex := clampPageIndex maxPageIndex (itemPage it)
  let parent : Option Nat := (st.parents (itemLevel it - 1)).getD none
  let idx := st.bookmarks.length
  { bookmarks := st.bookmarks ++ [{ title := itemTitle it, pageIndex := pageIndex, parent := parent }],
    parents := fun j =>
      if j = itemLevel it then some (some idx)
      else if itemLevel it < j then none
      else st.parents j }

/-- The whole `for` loop of `add_outlines_to_pdf`. -/
def mergeLoop (maxPageIndex : Int) (st : MergeState) : List OutlineItem → MergeState
  | [] => st
  | it :: rest => mergeLoop maxPageIndex (mergeStep maxPageIndex st it) rest

/-- `max_page_index = max(0, len(reader.pages) - 1)`. -/
def maxPageIndexOf (pageCount : Nat) : Int := max 0 ((pageCount : Int) - 1)

/-- Bookmark arena produced by `add_outlines_to_pdf` on a document with
`pageCount` pages. -/
def add_outlines_to_pdf (pageCount : Nat) (outlines : List OutlineItem) : List Bookmark :=
  (mergeLoop (maxPageIndexOf pageCount) initMergeState outlines).bookmarks

/-- The `for page in reader.pages: writer.add_page(page)` copy loop. -/
def writerPages {α : Type} (pages : List α) : List α :=
  pages.foldl (fun acc p => acc ++ [p]) []

/-- Full result of the Merger stage: the copied pages plus the bookmark
arena. -/
def add_outlines_result {α : Type} (pages : List α) (outlines : List OutlineItem) :
    List α × List Bookmark :=
  (writerPages pages, add_outlines_to_pdf pages.length outlines)

/-- The branch in `main`: when `outline_items` is empty the Merger is
skipped and the rendered PDF (pages, with no merger-added bookmarks)
proceeds unchanged to the Normalizer. -/
def pdf_for_pdfa_choice {α : Type} (pages : List α) (outlines : List OutlineItem) :
    List α × List Bookmark :=
  if outlines.isEmpty then (pages, []) else add_outlines_result pages outlines

/-- A Word paragraph as seen by `extract_outline_items`: `para.Range.Text`,
`para.OutlineLevel`, and `para.Range.Information(wdActiveEndPageNumber)`. -/
structure Paragraph where
  text : String
  outlineLevel : Int
  pageNumber : Int
deriving DecidableEq

/-- The Outline Extractor's paragraph loop: strip the text and skip the
paragraph when the stripped text is empty, the outline level is outside
`1..9`, or the resolved page number is not positive; otherwise emit
`(stripped text, level, page)`, in traversal order. -/
def extract_outline_items : List Paragraph → List OutlineItem
  | [] => []
  | p :: ps =>
    let text := p.text.trim
    if text = "" then extract_outline_items ps
    else if p.outlineLevel ≤ 0 ∨ 9 < p.outlineLevel then extract_outline_items ps
    else if p.pageNumber ≤ 0 then extract_outline_items ps
    else (text, p.outlineLevel, p.pageNumber) :: extract_outline_items ps

/-- A PDF output intent dictionary as built by the Normalizer. -/
structure OutputIntent where
  typeName : String
  s : String
  outputConditionIdentifier : String
  destOutputIntentSubtype : String
deriving DecidableEq

/-- The minimal sRGB/RGB output intent the Normalizer attaches when the
catalog has none. -/
def minimal_output_intent : OutputIntent :=
  { typeName := "OutputIntent", s := "GTS_PDFA2",
    outputConditionIdentifier := "sRGB", destOutputIntentSubtype := "RGB" }

/-- The identification fields of the XMP metadata stream the Normalizer
writes. -/
structure XmpMetadata where
  part : String
  conformance : String
deriving DecidableEq

/-- The fixed XMP payload: PDF/A part 2, conformance level B. -/
def pdfa2b_xmp : XmpMetadata := { part := "2", conformance := "B" }

/-- The slice of a pikepdf document the Normalizer reads and writes:
opaque remaining content, the catalog's `/OutputIntents` entry (`none` =
key absent), and the catalog's `/Metadata` stream. -/
structure PdfDoc where
  content : List String
  outputIntents : Option (List OutputIntent)
  metadata : Option XmpMetadata
deriving DecidableEq

/-- The catalog edits of `convert_pdf_to_pdfa`: attach the minimal output
intent only when `/OutputIntents` is absent, then unconditionally overwrite
`/Metadata` with the PDF/A-2b XMP stream. -/
def normalizeCatalog (pdf : PdfDoc) : PdfDoc :=
  let pdf1 :=
    match pdf.outputIntents with
    | none => { pdf with outputIntents := some [minimal_output_intent] }
    | some _ => pdf
  { pdf1 with metadata := some pdfa2b_xmp }

/-- `pikepdf.ObjectStreamMode` as passed to `pdf.save`. -/
inductive ObjectStreamMode where
  | disable
  | preserve
  | generate
deriving DecidableEq

/-- A successful `pdf.save` call: the saved document and the save
options. -/
structure SavedPdf where
  doc : PdfDoc
  minVersion : String
  objectStreamMode : ObjectStreamMode
deriving DecidableEq

/-- What ends up at the output path of the Normalizer stage: either the
normalized document written by `pdf.save`, or a byte-for-byte copy of the
input file made by `shutil.copy2`. -/
inductive StageOutput where
  | saved (s : SavedPdf)
  | copiedVerbatim
deriving DecidableEq

/-- Observable outcome of the Normalizer stage: the file written at the
output path and the warnings printed.  The type has no error alternative
because the stage's `try/except` catches every exception. -/
structure StageResult where
  output : StageOutput
  warnings : List String
deriving DecidableEq

/-- The whole `convert_pdf_to_pdfa` stage.  Calls into pikepdf may raise;
`openResult` is the outcome of `pikepdf.open` and `editOrSaveError` stands
for an exception raised anywhere later in the `try` block.  On any
exception the stage prints a warning and copies the input verbatim. -/
def convert_pdf_to_pdfa (openResult : Except String PdfDoc)
    (editOrSaveError : Option String) : StageResult :=
  match openResult with
  | Except.error e =>
    { output := StageOutput.copiedVerbatim,
      warnings := ["Warning during PDF/A conversion: " ++ e] }
  | Except.ok pdf =>
    match editOrSaveError with
    | some e =>
      { output := StageOutput.copiedVerbatim,
        warnings := ["Warning during PDF/A conversion: " ++ e] }
    | none =>
      { output := StageOutput.saved
          { doc := normalizeCatalog pdf, minVersion := "1.7",
            objectStreamMode := ObjectStreamMode.disable },
        warnings := [] }

/-! ### Basic lemmas about the merge loop -/

theorem mergeLoop_append (mpi : Int) (xs ys : List OutlineItem) (st : MergeState) :
    mergeLoop mpi st (xs ++ ys) = mergeLoop mpi (mergeLoop mpi st xs) ys := by
  induction xs generalizing st with
  | nil => rfl
  | cons x xs ih => simp [mergeLoop, ih]

theorem mergeLoop_bookmarks_length (mpi : Int) (xs : List OutlineItem) (st : MergeState) :
    (mergeLoop mpi st xs).bookmarks.length = st.bookmarks.length + xs.length := by
  induction xs generalizing st with
  | nil => simp [mergeLoop]
  | cons x xs ih =>
    rw [mergeLoop, ih]
    simp [mergeStep]
    omega

theorem mergeLoop_bookmarks_extend (mpi : Int) (xs : List OutlineItem) (st : MergeState) :
    ∃ t, (mergeLoop mpi st xs).bookmarks = st.bookmarks ++ t := by
  induction xs generalizing st with
  | nil => exact ⟨[], (List.append_nil _).symm⟩
  | cons x xs ih =>
    obtain ⟨t, ht⟩ := ih (mergeStep mpi st x)
    refine ⟨{ title := itemTitle x, pageIndex := clampPageIndex mpi (itemPage x),
              parent := (st.parents (itemLevel x - 1)).getD none } :: t, ?_⟩
    rw [mergeLoop, ht]
    simp [mergeStep]

theorem foldl_snoc_acc {α : Type} (pages acc : List α) :
    pages.foldl (fun a p => a ++ [p]) acc = acc ++ pages := by
  induction pages generalizing acc with
  | nil => simp
  | cons x xs ih => simp [ih]

theorem writerPages_eq {α : Type} (pages : List α) : writerPages pages = pages := by
  simpa [writerPages] using foldl_snoc_acc pages []

/-- C1: merging the outline `[("Intro",1,1), ("Background",2,1),
("Methods",1,3)]` into a 5-page document yields exactly the bookmark arena
`Intro` at page index 0 with no parent, `Background` at page index 0 with
parent `Intro` (node 0) and no other children of `Intro`, and `Methods` at
page index 2 with no parent — so the roots are exactly `Intro` and
`Methods`, siblings, and `Background` is the sole child of `Intro`. -/
theorem scenario_intro_background_methods :
    add_outlines_to_pdf 5 [("Intro", 1, 1), ("Background", 2, 1), ("Methods", 1, 3)] =
      [{ title := "Intro", pageIndex := 0, parent := none },
       { title := "Background", pageIndex := 0, parent := some 0 },
       { title := "Methods", pageIndex := 2, parent := none }] ∧
    (add_outlines_to_pdf 5 [("Intro", 1, 1), ("Background", 2, 1), ("Methods", 1, 3)]).filter
        (fun b => b.parent.isNone) =
      [{ title := "Intro", pageIndex := 0, parent := none },
       { title := "Methods", pageIndex := 2, parent := none }] ∧
    (add_outlines_to_pdf 5 [("Intro", 1, 1), ("Background", 2, 1), ("Methods", 1, 3)]).filter
        (fun b => decide (b.parent = some 0)) =
      [{ title := "Background", pageIndex := 0, parent := some 0 }] :=
  ⟨rfl, rfl, rfl⟩

/-- C5: merging the empty outline sequence leaves the page list unchanged
and produces zero bookmarks, and `main`'s branch on an empty extracted
outline skips the Merger and forwards the unmodified rendered PDF. -/
theorem empty_outline_roundtrip {α : Type} (pages : List α) :
    add_outlines_result pages ([] : List OutlineItem) = (pages, []) ∧
    pdf_for_pdfa_choice pages ([] : List OutlineItem) = (pages, []) := by
  constructor
  · simp [add_outlines_result, writerPages_eq, add_outlines_to_pdf, mergeLoop, initMergeState]
  · simp [pdf_for_pdfa_choice]

/-- C9: the Extractor emits exactly the paragraphs whose stripped text is
non-empty, whose outline level lies in `1..9`, and whose page number is
positive, in traversal order, mapping each to
`(stripped text, level, page)`; all other paragraphs are silently skipped
in place. -/
theorem extractor_filter_spec (paras : List Paragraph) :
    extract_outline_items paras =
      (paras.filter (fun p =>
          decide (¬ p.text.trim = "" ∧ 1 ≤ p.outlineLevel ∧ p.outlineLevel ≤ 9 ∧
            1 ≤ p.pageNumber))).map
        (fun p => (p.text.trim, p.outlineLevel, p.pageNumber)) := by
  induction paras with
  | nil => rfl
  | cons p ps ih =>
    by_cases h1 : p.text.trim = ""
    · simp [extract_outline_items, h1, ih, List.filter_cons]
    · by_cases h2 : p.outlineLevel ≤ 0 ∨ 9 < p.outlineLevel
      · have : ¬ (1 ≤ p.outlineLevel ∧ p.outlineLevel ≤ 9) := by omega
        simp only [extract_outline_items, List.filter_cons]
        rw [if_neg h1, if_pos h2, ih]
        have hd : (¬ p.text.trim = "" ∧ 1 ≤ p.outlineLevel ∧ p.outlineLevel ≤ 9 ∧
            1 ≤ p.pageNumber) = False := by
          simp only [eq_iff_iff, iff_false]
          rintro ⟨-, ha, hb, -⟩
          omega
        simp [hd]
      · by_cases h3 : p.pageNumber ≤ 0
        · simp only [extract_outline_items, List.filter_cons]
          rw [if_neg h1, if_neg h2, if_pos h3, ih]
          have hd : (¬ p.text.trim = "" ∧ 1 ≤ p.outlineLevel ∧ p.outlineLevel ≤ 9 ∧
              1 ≤ p.pageNumber) = False := by
            simp only [eq_iff_iff, iff_false]
            rintro ⟨-, -, -, hc⟩
            omega
          simp [hd]
        · simp only [extract_outline_items, List.filter_cons]
          rw [if_neg h1, if_neg h2, if_neg h3, ih]
          have hd : (¬ p.text.trim = "" ∧ 1 ≤ p.outlineLevel ∧ p.outlineLevel ≤ 9 ∧
              1 ≤ p.pageNumber) = True := by
            simp only [eq_iff_iff, iff_true]
            refine ⟨h1, ?_, ?_, ?_⟩ <;> omega
          simp [hd]

/-- C6: the Normalizer's compliance markers are idempotent — when the
catalog already carries `/OutputIntents` no second intent is attached (in
particular on a second run), while the XMP metadata is overwritten on every
run and still declares PDF/A part 2 conformance B, and a PDF normalized
twice starting from a catalog without `/OutputIntents` carries exactly the
one minimal output intent. -/
theorem normalizer_idempotent_markers (pdf : PdfDoc) :
    (pdf.outputIntents.isSome → (normalizeCatalog pdf).outputIntents = pdf.outputIntents) ∧
    (normalizeCatalog (normalizeCatalog pdf)).metadata = some pdfa2b_xmp ∧
    (normalizeCatalog (normalizeCatalog pdf)).outputIntents =
      (normalizeCatalog pdf).outputIntents ∧
    (pdf.outputIntents = none →
      (normalizeCatalog (normalizeCatalog pdf)).outputIntents =
        some [minimal_output_intent]) := by
  cases h : pdf.outputIntents <;> simp [normalizeCatalog, h]

theorem normalizer_idempotent_markers_witness :
    (normalizeCatalog (normalizeCatalog
        { content := ["body"], outputIntents := none, metadata := none })).outputIntents =
      some [minimal_output_intent] :=
  (normalizer_idempotent_markers
    { content := ["body"], outputIntents := none, metadata := none }).2.2.2 rfl

/-- C7: whenever the Normalizer stage actually saves a document (rather
than falling back to a copy), the save uses baseline PDF version `"1.7"`
and object-stream compression disabled. -/
theorem normalizer_save_baseline (openResult : Except String PdfDoc)
    (editOrSaveError : Option String) (s : SavedPdf)
    (h : (convert_pdf_to_pdfa openResult editOrSaveError).output = StageOutput.saved s) :
    s.minVersion = "1.7" ∧ s.objectStreamMode = ObjectStreamMode.disable := by
  cases openResult with
  | error e => simp [convert_pdf_to_pdfa] at h
  | ok pdf =>
    cases editOrSaveError with
    | some e => simp [convert_pdf_to_pdfa] at h
    | none =>
      simp only [convert_pdf_to_pdfa, StageOutput.saved.injEq] at h
      rcases h with rfl
      exact ⟨rfl, rfl⟩

theorem normalizer_save_baseline_witness :
    ({ doc := normalizeCatalog { content := [], outputIntents := none, metadata := none },
       minVersion := "1.7", objectStreamMode := ObjectStreamMode.disable } : SavedPdf).minVersion
        = "1.7" ∧
    ({ doc := normalizeCatalog { content := [], outputIntents := none, metadata := none },
       minVersion := "1.7",
       objectStreamMode := ObjectStreamMode.disable } : SavedPdf).objectStreamMode =
      ObjectStreamMode.disable :=
  normalizer_save_baseline
    (Except.ok { content := [], outputIntents := none, metadata := none }) none
    { doc := normalizeCatalog { content := [], outputIntents := none, metadata := none },
      minVersion := "1.7", objectStreamMode := ObjectStreamMode.disable } rfl

/-- C8: any exception inside the Normalizer stage (at `pikepdf.open` or at
any later edit/save step) is caught: the stage emits a warning and writes a
verbatim copy of the input file; in every case the stage terminates with an
output file (copy or saved document) rather than propagating a failure. -/
theorem normalizer_catches_and_copies (openResult : Except String PdfDoc)
    (editOrSaveError : Option String) :
    (((∃ e, openResult = Except.error e) ∨ (∃ e, editOrSaveError = some e)) →
      (convert_pdf_to_pdfa openResult editOrSaveError).output = StageOutput.copiedVerbatim ∧
      (convert_pdf_to_pdfa openResult editOrSaveError).warnings ≠ []) ∧
    ((convert_pdf_to_pdfa openResult editOrSaveError).output = StageOutput.copiedVerbatim ∨
      ∃ s, (convert_pdf_to_pdfa openResult editOrSaveError).output = StageOutput.saved s) := by
  cases openResult <;> cases editOrSaveError <;> simp [convert_pdf_to_pdfa]

theorem normalizer_catches_and_copies_witness :
    (convert_pdf_to_pdfa (Except.error "file is not a PDF") none).output =
      StageOutput.copiedVerbatim ∧
    (convert_pdf_to_pdfa (Except.error "file is not a PDF") none).warnings ≠ [] :=
  (normalizer_catches_and_copies (Except.error "file is not a PDF") none).1
    (Or.inl ⟨"file is not a PDF", rfl⟩)

/-! ### Characterization of the `parents` dict -/

theorem getD_take_of_lt {α : Type} (xs : List α) (d : α) (i k : Nat) (h : k < i) :
    (xs.take i).getD k d = xs.getD k d := by
  induction xs generalizing i k with
  | nil => simp
  | cons a as ih =>
    cases i with
    | zero => exact absurd h (Nat.not_lt_zero k)
    | succ i' =>
      cases k with
      | zero => simp
      | succ k' => simpa using ih i' k' (by omega)

theorem levelAt_take (xs : List OutlineItem) (i k : Nat) (h : k < i) :
    levelAt (xs.take i) k = levelAt xs k := by
  unfold levelAt
  rw [getD_take_of_lt _ _ _ _ h]

theorem levelAt_append_of_lt (q : List OutlineItem) (x : OutlineItem) (k : Nat)
    (h : k < q.length) : levelAt (q ++ [x]) k = levelAt q k := by
  unfold levelAt
  rw [List.getD_append _ _ _ _ h]

theorem levelAt_append_length (q : List OutlineItem) (x : OutlineItem) :
    levelAt (q ++ [x]) q.length = itemLevel x := by
  simp [levelAt, List.getD_append_right _ _ _ _ (le_refl q.length)]

/-- Invariant of the merge loop, stated for the loop started in the initial
state: the `parents` dict holds the root sentinel at key `0` exactly while
no item of level `≤ 0` has been processed, and holds node `i` at key `j`
exactly when item `i` has level `j` and every item after `i` is strictly
deeper — a later item at level `≤ j` would have overwritten or deleted the
entry. -/
theorem mergeLoop_parents_spec (mpi : Int) (xs : List OutlineItem) (j : Int) :
    ((mergeLoop mpi initMergeState xs).parents j = some none ↔
      j = 0 ∧ ∀ k, k < xs.length → 0 < levelAt xs k) ∧
    (∀ i : Nat, (mergeLoop mpi initMergeState xs).parents j = some (some i) ↔
      (i < xs.length ∧ levelAt xs i = j ∧
        ∀ k, i < k → k < xs.length → j < levelAt xs k)) := by
  induction xs using List.reverseRecOn with
  | nil =>
    constructor
    · by_cases hj : j = 0 <;> simp [mergeLoop, initMergeState, hj]
    · intro i
      by_cases hj : j = 0 <;> simp [mergeLoop, initMergeState, hj]
  | append_singleton q x ih =>
    have hstep : mergeLoop mpi initMergeState (q ++ [x]) =
        mergeStep mpi (mergeLoop mpi initMergeState q) x := by
      rw [mergeLoop_append]
      rfl
    have hlen : (mergeLoop mpi initMergeState q).bookmarks.length = q.length := by
      simpa [initMergeState] using mergeLoop_bookmarks_length mpi q initMergeState
    have hlapp : (q ++ [x]).length = q.length + 1 := by simp
    rw [hstep]
    rcases lt_trichotomy j (itemLevel x) with hj | hj | hj
    · -- the key `j` is untouched by this step
      have hp : (mergeStep mpi (mergeLoop mpi initMergeState q) x).parents j =
          (mergeLoop mpi initMergeState q).parents j := by
        simp only [mergeStep]
        rw [if_neg (by omega), if_neg (by omega)]
      rw [hp, hlapp]
      constructor
      · rw [ih.1]
        constructor
        · rintro ⟨rfl, hall⟩
          refine ⟨rfl, ?_⟩
          intro k hk
          rcases Nat.lt_or_ge k q.length with hk' | hk'
          · rw [levelAt_append_of_lt _ _ _ hk']
            exact hall k hk'
          · have hkq : k = q.length := by omega
            subst hkq
            rw [levelAt_append_length]
            omega
        · rintro ⟨rfl, hall⟩
          refine ⟨rfl, ?_⟩
          intro k hk
          have h' := hall k (by omega)
          rwa [levelAt_append_of_lt _ _ _ hk] at h'
      · intro i
        rw [ih.2 i]
        constructor
        · rintro ⟨hi, hli, hafter⟩
          refine ⟨by omega, ?_, ?_⟩
          · rw [levelAt_append_of_lt _ _ _ hi]
            exact hli
          · intro k hik hk
            rcases Nat.lt_or_ge k q.length with hk' | hk'
            · rw [levelAt_append_of_lt _ _ _ hk']
              exact hafter k hik hk'
            · have hkq : k = q.length := by omega
              subst hkq
              rw [levelAt_append_length]
              omega
        · rintro ⟨hi, hli, hafter⟩
          have hiq : i < q.length := by
            rcases Nat.lt_or_ge i q.length with h' | h'
            · exact h'
            · exfalso
              have hieq : i = q.length := by omega
              subst hieq
              rw [levelAt_append_length] at hli
              omega
          refine ⟨hiq, ?_, ?_⟩
          · rwa [levelAt_append_of_lt _ _ _ hiq] at hli
          · intro k hik hk
            have h' := hafter k hik (by omega)
            rwa [levelAt_append_of_lt _ _ _ hk] at h'
    · -- the key `j = itemLevel x` is overwritten with the new node
      have hp : (mergeStep mpi (mergeLoop mpi initMergeState q) x).parents j =
          some (some q.length) := by
        simp only [mergeStep]
        rw [if_pos hj, hlen]
      rw [hp, hlapp]
      constructor
      · constructor
        · intro h
          simp at h
        · rintro ⟨rfl, hall⟩
          exfalso
          have h' := hall q.length (by omega)
          rw [levelAt_append_length] at h'
          omega
      · intro i
        constructor
        · intro h
          have hqi : q.length = i := by simpa using h
          subst hqi
          refine ⟨by omega, ?_, ?_⟩
          · rw [levelAt_append_length]
            omega
          · intro k hk1 hk2
            omega
        · rintro ⟨hi, hli, hafter⟩
          have hieq : i = q.length := by
            by_contra hne
            have hiq : i < q.length := by omega
            have h' := hafter q.length hiq (by omega)
            rw [levelAt_append_length] at h'
            omega
          subst hieq
          rfl
    · -- the key `j` is strictly deeper than the new item: deleted
      have hp : (mergeStep mpi (mergeLoop mpi initMergeState q) x).parents j = none := by
        simp only [mergeStep]
        rw [if_neg (by omega), if_pos hj]
      rw [hp, hlapp]
      constructor
      · constructor
        · intro h
          simp at h
        · rintro ⟨rfl, hall⟩
          have h' := hall q.length (by omega)
          rw [levelAt_append_length] at h'
          omega
      · intro i
        constructor
        · intro h
          simp at h
        · rintro ⟨hi, hli, hafter⟩
          exfalso
          rcases Nat.lt_or_ge i q.length with hiq | hiq
          · have h' := hafter q.length hiq (by omega)
            rw [levelAt_append_length] at h'
            omega
          · have hieq : i = q.length := by omega
            subst hieq
            rw [levelAt_append_length] at hli
            omega

/-- The bookmark at position `i` of the Merger's output is exactly the node
created while processing item `i`: title and clamped page from the item,
parent looked up at `level - 1` in the `parents` dict as it stood after the
first `i` items. -/
theorem add_outlines_getD (pc : Nat) (outlines : List OutlineItem) (i : Nat)
    (hi : i < outlines.length) :
    (add_outlines_to_pdf pc outlines).getD i default =
      { title := itemTitle (outlines.getD i defaultItem),
        pageIndex := clampPageIndex (maxPageIndexOf pc) (itemPage (outlines.getD i defaultItem)),
        parent := ((mergeLoop (maxPageIndexOf pc) initMergeState (outlines.take i)).parents
          (levelAt outlines i - 1)).getD none } := by
  have h1 : outlines.take (i + 1) = outlines.take i ++ [outlines.getD i defaultItem] := by
    rw [List.take_succ, List.getElem?_eq_getElem hi]
    rw [List.getD_eq_getElem _ _ hi]
    rfl
  have h2 : outlines = outlines.take (i + 1) ++ outlines.drop (i + 1) :=
    (List.take_append_drop _ _).symm
  have hSlen : (mergeLoop (maxPageIndexOf pc) initMergeState (outlines.take i)).bookmarks.length
      = i := by
    rw [mergeLoop_bookmarks_length]
    simp only [initMergeState, List.length_nil, Nat.zero_add, List.length_take]
    omega
  rw [add_outlines_to_pdf]
  conv_lhs => rw [h2]
  rw [mergeLoop_append]
  obtain ⟨t, ht⟩ := mergeLoop_bookmarks_extend (maxPageIndexOf pc) (outlines.drop (i + 1))
    (mergeLoop (maxPageIndexOf pc) initMergeState (outlines.take (i + 1)))
  rw [ht, h1, mergeLoop_append]
  simp only [mergeLoop, mergeStep]
  rw [List.getD_append _ _ _ _ (by rw [List.length_append, hSlen]; simp)]
  rw [List.getD_append_right _ _ _ _ hSlen.le]
  rw [hSlen]
  simp [levelAt, List.getD_eq_getElem?_getD]

/-- C2 as stated fails on the code: in `[("A",2,1), ("B",1,1), ("C",3,1)]`
the item `"C"` has level 3 and a level-2 item (`"A"`, position 0 — the only
and hence most recently emitted one) precedes it, so the claim requires
`"C"`'s bookmark to be a child of `"A"`'s; the Merger instead makes `"C"` a
root-level bookmark, because processing `"B"` at level 1 deleted the
recorded level-2 entry. -/
theorem merger_parent_rule_counterexample :
    levelAt [("A", 2, 1), ("B", 1, 1), ("C", 3, 1)] 2 = 3 ∧
    levelAt [("A", 2, 1), ("B", 1, 1), ("C", 3, 1)] 0 = 2 ∧
    (∀ j, j < 2 → levelAt [("A", 2, 1), ("B", 1, 1), ("C", 3, 1)] j = 2 → j = 0) ∧
    ((add_outlines_to_pdf 1 [("A", 2, 1), ("B", 1, 1), ("C", 3, 1)]).getD 2 default).parent
      = none ∧
    ((add_outlines_to_pdf 1 [("A", 2, 1), ("B", 1, 1), ("C", 3, 1)]).getD 2 default).parent
      ≠ some 0 := by
  refine ⟨rfl, rfl, ?_, rfl, by decide⟩
  decide

/-- C2 (amended): a bookmark created from an item at level `L > 1` is a
child of the bookmark created from the most recently emitted level-`(L-1)`
item preceding it provided every item between the two is strictly deeper
than `L - 1`; otherwise — no level-`(L-1)` item precedes it at all, or
every preceding one is followed by a strictly-shallower-or-equal-level item
before the current one (which deletes or supersedes the recorded entry) —
it becomes a root-level bookmark. -/
theorem merger_parent_rule (pc : Nat) (outlines : List OutlineItem) (i : Nat)
    (hi : i < outlines.length) (hL : 1 < levelAt outlines i) :
    (∃ j, j < i ∧ levelAt outlines j = levelAt outlines i - 1 ∧
        (∀ k, j < k → k < i → levelAt outlines i - 1 < levelAt outlines k) ∧
        ((add_outlines_to_pdf pc outlines).getD i default).parent = some j) ∨
    ((∀ j, j < i → levelAt outlines j = levelAt outlines i - 1 →
        ∃ k, j < k ∧ k < i ∧ levelAt outlines k ≤ levelAt outlines i - 1) ∧
      ((add_outlines_to_pdf pc outlines).getD i default).parent = none) := by
  have hb := add_outlines_getD pc outlines i hi
  have hspec := mergeLoop_parents_spec (maxPageIndexOf pc) (outlines.take i)
    (levelAt outlines i - 1)
  have hlen_take : (outlines.take i).length = i := by
    rw [List.length_take]
    omega
  cases hv : (mergeLoop (maxPageIndexOf pc) initMergeState (outlines.take i)).parents
      (levelAt outlines i - 1) with
  | none =>
    right
    constructor
    · intro j hj hlvl
      by_contra hcon
      push_neg at hcon
      have hC := (hspec.2 j).2 ⟨by omega, ?_, ?_⟩
      · rw [hv] at hC
        exact Option.noConfusion hC
      · rw [levelAt_take _ _ _ hj]
        exact hlvl
      · intro k hk1 hk2
        rw [hlen_take] at hk2
        rw [levelAt_take _ _ _ hk2]
        have h' := hcon k hk1 hk2
        omega
    · rw [hb]
      show ((mergeLoop (maxPageIndexOf pc) initMergeState (outlines.take i)).parents
        (levelAt outlines i - 1)).getD none = none
      rw [hv]
      rfl
  | some vv =>
    cases vv with
    | none =>
      exfalso
      have h' := hspec.1.1 hv
      omega
    | some p =>
      left
      obtain ⟨hp1, hp2, hp3⟩ := (hspec.2 p).1 hv
      rw [hlen_take] at hp1
      refine ⟨p, hp1, ?_, ?_, ?_⟩
      · rwa [levelAt_take _ _ _ hp1] at hp2
      · intro k hk1 hk2
        have h' := hp3 k hk1 (by omega)
        rwa [levelAt_take _ _ _ hk2] at h'
      · rw [hb]
        show ((mergeLoop (maxPageIndexOf pc) initMergeState (outlines.take i)).parents
          (levelAt outlines i - 1)).getD none = some p
        rw [hv]
        rfl

theorem merger_parent_rule_witness :
    (∃ j, j < 1 ∧ levelAt [("a", 1, 1), ("b", 2, 1)] j = levelAt [("a", 1, 1), ("b", 2, 1)] 1 - 1 ∧
        (∀ k, j < k → k < 1 →
          levelAt [("a", 1, 1), ("b", 2, 1)] 1 - 1 < levelAt [("a", 1, 1), ("b", 2, 1)] k) ∧
        ((add_outlines_to_pdf 1 [("a", 1, 1), ("b", 2, 1)]).getD 1 default).parent = some j) ∨
    ((∀ j, j < 1 → levelAt [("a", 1, 1), ("b", 2, 1)] j = levelAt [("a", 1, 1), ("b", 2, 1)] 1 - 1 →
        ∃ k, j < k ∧ k < 1 ∧
          levelAt [("a", 1, 1), ("b", 2, 1)] k ≤ levelAt [("a", 1, 1), ("b", 2, 1)] 1 - 1) ∧
      ((add_outlines_to_pdf 1 [("a", 1, 1), ("b", 2, 1)]).getD 1 default).parent = none) :=
  merger_parent_rule 1 [("a", 1, 1), ("b", 2, 1)] 1 (by decide) (by decide)

/-- C3: right after the Merger processes item `i` (at whatever level), the
`parents` dict holds no entry at any level strictly deeper than item `i`'s
level; consequently a later bookmark whose parent sits at a level deeper
than item `i`'s level can only be attached to a node created after item
`i`, never to a deeper node recorded before it. -/
theorem merger_invalidates_deeper (pc : Nat) (outlines : List OutlineItem) (i : Nat)
    (hi : i < outlines.length) :
    (∀ j, levelAt outlines i < j →
        (mergeLoop (maxPageIndexOf pc) initMergeState (outlines.take (i + 1))).parents j
          = none) ∧
    (∀ m p, i < m → m < outlines.length → levelAt outlines i < levelAt outlines m - 1 →
        ((add_outlines_to_pdf pc outlines).getD m default).parent = some p → i < p) := by
  constructor
  · intro j hj
    have hspec := mergeLoop_parents_spec (maxPageIndexOf pc) (outlines.take (i + 1)) j
    have hlen : (outlines.take (i + 1)).length = i + 1 := by
      rw [List.length_take]
      omega
    cases hv : (mergeLoop (maxPageIndexOf pc) initMergeState (outlines.take (i + 1))).parents j with
    | none => rfl
    | some vv =>
      exfalso
      cases vv with
      | none =>
        obtain ⟨hj0, hall⟩ := hspec.1.1 hv
        have h2 := hall i (by omega)
        rw [levelAt_take _ _ _ (by omega)] at h2
        omega
      | some p =>
        obtain ⟨hp1, hp2, hp3⟩ := (hspec.2 p).1 hv
        rw [hlen] at hp1
        rcases Nat.lt_or_ge p i with hpi | hpi
        · have h3 := hp3 i hpi (by omega)
          rw [levelAt_take _ _ _ (by omega)] at h3
          omega
        · have hpe : p = i := by omega
          subst hpe
          rw [levelAt_take _ _ _ (by omega)] at hp2
          omega
  · intro m p him hm hlvl hpar
    have hbm := add_outlines_getD pc outlines m hm
    rw [hbm] at hpar
    have hpar' : ((mergeLoop (maxPageIndexOf pc) initMergeState (outlines.take m)).parents
        (levelAt outlines m - 1)).getD none = some p := hpar
    cases hv : (mergeLoop (maxPageIndexOf pc) initMergeState (outlines.take m)).parents
        (levelAt outlines m - 1) with
    | none =>
      rw [hv] at hpar'
      exact absurd hpar' (by simp)
    | some vv =>
      cases vv with
      | none =>
        rw [hv] at hpar'
        exact absurd hpar' (by simp)
      | some p' =>
        rw [hv] at hpar'
        have hpp : p' = p := by simpa using hpar'
        subst hpp
        obtain ⟨hp1, hp2, hp3⟩ :=
          ((mergeLoop_parents_spec (maxPageIndexOf pc) (outlines.take m)
            (levelAt outlines m - 1)).2 p').1 hv
        have hlenm : (outlines.take m).length = m := by
          rw [List.length_take]
          omega
        rw [hlenm] at hp1
        rcases Nat.lt_or_ge i p' with hgood | hbad
        · exact hgood
        · exfalso
          rcases Nat.lt_or_ge p' i with hpi | hpi
          · have h3 := hp3 i hpi (by omega)
            rw [levelAt_take _ _ _ (by omega)] at h3
            omega
          · have hpe : p' = i := by omega
            subst hpe
            rw [levelAt_take _ _ _ (by omega)] at hp2
            omega

theorem merger_invalidates_deeper_witness :
    (mergeLoop (maxPageIndexOf 3) initMergeState
        ([("a", 1, 1), ("b", 2, 1), ("c", 1, 2)].take (2 + 1))).parents 2 = none :=
  (merger_invalidates_deeper 3 [("a", 1, 1), ("b", 2, 1), ("c", 1, 2)] 2 (by decide)).1 2
    (by decide)

theorem mergeLoop_pageIndex_bound (mpi : Int) (hmpi : 0 ≤ mpi) (xs : List OutlineItem)
    (st : MergeState) (hst : ∀ b ∈ st.bookmarks, 0 ≤ b.pageIndex ∧ b.pageIndex ≤ mpi) :
    ∀ b ∈ (mergeLoop mpi st xs).bookmarks, 0 ≤ b.pageIndex ∧ b.pageIndex ≤ mpi := by
  induction xs generalizing st with
  | nil => exact hst
  | cons x xs ih =>
    rw [mergeLoop]
    apply ih
    intro b hb
    simp only [mergeStep, List.mem_append, List.mem_singleton] at hb
    rcases hb with hb | hb
    · exact hst b hb
    · subst hb
      refine ⟨?_, ?_⟩
      · simp only [clampPageIndex]
        omega
      · simp only [clampPageIndex]
        omega

/-- C4: on a document with at least one page, every bookmark the Merger
emits targets a page index in `[0, pageCount - 1]`: the item's 1-based page
number is shifted to a 0-based index and clamped into range, with no error
reported for out-of-range pages. -/
theorem merger_page_in_range (pc : Nat) (outlines : List OutlineItem) (hpc : 0 < pc) :
    ∀ b ∈ add_outlines_to_pdf pc outlines, 0 ≤ b.pageIndex ∧ b.pageIndex ≤ (pc : Int) - 1 := by
  intro b hb
  have hmax : maxPageIndexOf pc = (pc : Int) - 1 := by
    rw [maxPageIndexOf, max_eq_right]
    omega
  have h' := mergeLoop_pageIndex_bound (maxPageIndexOf pc) (le_max_left _ _) outlines
    initMergeState (by simp [initMergeState]) b hb
  rwa [hmax] at h'

theorem merger_page_in_range_witness :
    0 ≤ ({ title := "A", pageIndex := 4, parent := none } : Bookmark).pageIndex ∧
    ({ title := "A", pageIndex := 4, parent := none } : Bookmark).pageIndex ≤ (5 : Int) - 1 :=
  merger_page_in_range 5 [("A", 1, 9)] (by decide)
    { title := "A", pageIndex := 4, parent := none } (by decide)

theorem getD_mem {α : Type} (xs : List α) (k : Nat) (d : α) (h : k < xs.length) :
    xs.getD k d ∈ xs := by
  rw [List.getD_eq_getElem _ _ h]
  exact List.getElem_mem h

/-- C10: while all merged items have level at least 1, level 0 of the
`parents` dict keeps the root sentinel through the whole merge, so every
level-1 item produces a root-level bookmark; but an item of level 0 handed
directly to the Merger overwrites the sentinel slot, and the level-1 items
after it (absent further level-`≤ 0` items) attach under it — at parent
node `pre.length`, its creation index — instead of at the root. -/
theorem merger_root_sentinel (pc : Nat) (outlines : List OutlineItem) :
    ((∀ it ∈ outlines, 1 ≤ itemLevel it) →
      (∀ i, i ≤ outlines.length →
        (mergeLoop (maxPageIndexOf pc) initMergeState (outlines.take i)).parents 0
          = some none) ∧
      (∀ i, i < outlines.length → levelAt outlines i = 1 →
        ((add_outlines_to_pdf pc outlines).getD i default).parent = none)) ∧
    (∀ pre post : List OutlineItem, ∀ z : OutlineItem,
      outlines = pre ++ z :: post → itemLevel z = 0 → (∀ it ∈ post, 1 ≤ itemLevel it) →
      ∀ m, pre.length < m → m < outlines.length → levelAt outlines m = 1 →
        ((add_outlines_to_pdf pc outlines).getD m default).parent = some pre.length) := by
  constructor
  · intro hall
    have hsent : ∀ i, i ≤ outlines.length →
        (mergeLoop (maxPageIndexOf pc) initMergeState (outlines.take i)).parents 0
          = some none := by
      intro i hi
      refine ((mergeLoop_parents_spec (maxPageIndexOf pc) (outlines.take i) 0).1).2 ⟨rfl, ?_⟩
      intro k hk
      rw [List.length_take] at hk
      rw [levelAt_take _ _ _ (by omega)]
      have hmem := getD_mem outlines k defaultItem (by omega)
      have h1 := hall _ hmem
      show 0 < itemLevel (outlines.getD k defaultItem)
      omega
    refine ⟨hsent, ?_⟩
    intro i hi hl1
    have hb := add_outlines_getD pc outlines i hi
    rw [hb]
    have hkey : levelAt outlines i - 1 = 0 := by omega
    rw [hkey, hsent i hi.le]
    rfl
  · intro pre post z heq hz hpost m hm1 hm2 hlm
    subst heq
    have hb := add_outlines_getD pc (pre ++ z :: post) m hm2
    rw [hb]
    have hkey : levelAt (pre ++ z :: post) m - 1 = 0 := by omega
    rw [hkey]
    have hlen_take : ((pre ++ z :: post).take m).length = m := by
      rw [List.length_take]
      omega
    have hlen_all : (pre ++ z :: post).length = pre.length + post.length + 1 := by
      simp only [List.length_append, List.length_cons]
      omega
    have hzlev : levelAt (pre ++ z :: post) pre.length = 0 := by
      unfold levelAt
      rw [List.getD_append_right _ _ _ _ (le_refl pre.length)]
      simpa using hz
    have hafter : ∀ k, pre.length < k → k < m → 0 < levelAt (pre ++ z :: post) k := by
      intro k hk1 hk2
      have hd : k - pre.length = (k - pre.length - 1) + 1 := by omega
      unfold levelAt
      rw [List.getD_append_right _ _ _ _ (by omega), hd, List.getD_cons_succ]
      have hmem := getD_mem post (k - pre.length - 1) defaultItem (by omega)
      have h1 := hpost _ hmem
      omega
    have hv : (mergeLoop (maxPageIndexOf pc) initMergeState ((pre ++ z :: post).take m)).parents 0
        = some (some pre.length) := by
      refine ((mergeLoop_parents_spec (maxPageIndexOf pc) ((pre ++ z :: post).take m) 0).2
        pre.length).2 ⟨by omega, ?_, ?_⟩
      · rw [levelAt_take _ _ _ (by omega)]
        exact hzlev
      · intro k hk1 hk2
        rw [hlen_take] at hk2
        rw [levelAt_take _ _ _ (by omega)]
        exact hafter k hk1 hk2
    rw [hv]
    rfl

theorem merger_root_sentinel_witness :
    ((add_outlines_to_pdf 2 [("Z", 0, 1), ("A", 1, 1)]).getD 1 default).parent = some 0 :=
  (merger_root_sentinel 2 [("Z", 0, 1), ("A", 1, 1)]).2 [] [("A", 1, 1)] ("Z", 0, 1) rfl rfl
    (by decide) 1 (by decide) (by decide) (by decide)
